import Mathlib

/-!
Verification of the quiz evaluation, randomization, and cross-lesson gating
engine of the LMSFrontend repository.

The definitions below are shallow embeddings of the TypeScript source:
`src/components/LessonSidebar.tsx` (locked-lesson scan),
`src/app/courses/[courseId]/page.tsx` (locked-lesson scan),
`src/app/courses/page.tsx` (LessonPage locked scan, lesson rendering),
`src/components/QuizPlayer.tsx` (Fisher-Yates shuffle, option-order maps,
selection handlers, submission, attempt-eligibility state).
-/

/-! ## Gating Scanner data model

A `LessonProgress` record mirrors one entry of the course-progress API
response (`{lessonId, lessonTitle, lessonType, completed, passMarkPercentage}`).
The title plays no role in gating and is omitted from the record consumers;
we keep it for fidelity to the fetched shape.
-/

structure LessonProgress where
  lessonId : String
  lessonTitle : String
  lessonType : String
  completed : Bool
  passMarkPercentage : Nat
  deriving Repr, DecidableEq

structure ModuleProgress where
  moduleId : String
  lessons : List LessonProgress
  deriving Repr, DecidableEq

/-- Gate test of the `LessonSidebar.tsx` scan:
`lesson.lessonType === "quiz" && (lesson.passMarkPercentage || 0) > 0 && !lesson.completed`. -/
def sidebarGate (l : LessonProgress) : Bool :=
  l.lessonType == "quiz" && decide (0 < l.passMarkPercentage) && !l.completed

/-- Gate test of the `CourseDetailPage` scan in
`src/app/courses/[courseId]/page.tsx`:
`(lesson.passMarkPercentage || 0) > 0 && !lesson.completed` — the fetched
`ProgressLesson` there carries no `lessonType` field and the type is not
consulted. -/
def detailGate (l : LessonProgress) : Bool :=
  decide (0 < l.passMarkPercentage) && !l.completed

/-- Gate test of the `LessonPage` `fetchProgress` scan in
`src/app/courses/page.tsx`:
`(l.passMarkPercentage || 0) > 0 && !l.completed` — again no type check. -/
def lessonPageGate (l : LessonProgress) : Bool :=
  decide (0 < l.passMarkPercentage) && !l.completed

/-- One module's worth of the scan loop shared by all three copies:
for each lesson, if `blocked` add its id to the locked set, else if the
gate test fires set `blocked := true`.  The accumulated state is the pair
(`blocked`, locked ids in insertion order). -/
def scanLessons (gate : LessonProgress → Bool) :
    Bool × List String → List LessonProgress → Bool × List String
  | st, [] => st
  | (blocked, locked), l :: ls =>
    if blocked then scanLessons gate (blocked, locked ++ [l.lessonId]) ls
    else if gate l then scanLessons gate (true, locked) ls
    else scanLessons gate (false, locked) ls

/-- The full nested loop over modules, threading `blocked` across module
boundaries, starting from `blocked = false` and an empty locked set. -/
def lockedScan (gate : LessonProgress → Bool) (mods : List ModuleProgress) :
    List String :=
  (mods.foldl (fun st m => scanLessons gate st m.lessons) (false, [])).2

/-- `lockedLessons` of `LessonSidebar.tsx`. -/
def lockedLessons (mods : List ModuleProgress) : List String :=
  lockedScan sidebarGate mods

/-- `locked` of `CourseDetailPage` (`src/app/courses/[courseId]/page.tsx`). -/
def detailLocked (mods : List ModuleProgress) : List String :=
  lockedScan detailGate mods

/-- `lockedSet` of `LessonPage.fetchProgress` (`src/app/courses/page.tsx`). -/
def lessonPageLocked (mods : List ModuleProgress) : List String :=
  lockedScan lessonPageGate mods

/-- The flattened (module order, then lesson order) sequence of a snapshot. -/
def flattenSnapshot (mods : List ModuleProgress) : List LessonProgress :=
  mods.flatMap (·.lessons)

/-! ### Characterization of the scan -/

theorem scanLessons_blocked (gate : LessonProgress → Bool) (acc : List String) :
    ∀ ls : List LessonProgress,
      scanLessons gate (true, acc) ls = (true, acc ++ ls.map (·.lessonId)) := by
  intro ls
  induction ls generalizing acc with
  | nil => simp [scanLessons]
  | cons l ls ih => simp [scanLessons, ih, List.append_assoc]

/-- Ids locked strictly after the first gate of the sequence. -/
def afterFirstGate (gate : LessonProgress → Bool) :
    List LessonProgress → List String
  | [] => []
  | l :: ls =>
    if gate l then ls.map (·.lessonId) else afterFirstGate gate ls

theorem scanLessons_unblocked (gate : LessonProgress → Bool) :
    ∀ (ls : List LessonProgress) (acc : List String),
      scanLessons gate (false, acc) ls =
        (ls.any gate, acc ++ afterFirstGate gate ls) := by
  intro ls
  induction ls with
  | nil => intro acc; simp [scanLessons, afterFirstGate]
  | cons l ls ih =>
    intro acc
    by_cases h : gate l
    · simp [scanLessons, h, afterFirstGate, scanLessons_blocked]
    · simp [scanLessons, h, afterFirstGate, ih]

/-- The nested module loop computes the same state as the scan of the
flattened sequence: the `blocked` flag carries across module boundaries. -/
theorem lockedScan_eq_flat (gate : LessonProgress → Bool)
    (mods : List ModuleProgress) :
    lockedScan gate mods =
      (scanLessons gate (false, []) (flattenSnapshot mods)).2 := by
  unfold lockedScan flattenSnapshot
  suffices h : ∀ (ms : List ModuleProgress) (st : Bool × List String),
      ms.foldl (fun st m => scanLessons gate st m.lessons) st =
        scanLessons gate st (ms.flatMap (·.lessons)) by
    rw [h]
  intro ms
  induction ms with
  | nil => intro st; simp [scanLessons]
  | cons m ms ih =>
    intro st
    have happ : ∀ (l₁ l₂ : List LessonProgress) (st : Bool × List String),
        scanLessons gate st (l₁ ++ l₂) =
          scanLessons gate (scanLessons gate st l₁) l₂ := by
      intro l₁
      induction l₁ with
      | nil => intro l₂ st; simp [scanLessons]
      | cons a l₁ ih₁ =>
        intro l₂ st
        obtain ⟨b, acc⟩ := st
        by_cases hb : b
        · simp [scanLessons, hb, ih₁]
        · by_cases hg : gate a <;> simp [scanLessons, hb, hg, ih₁]
    simp [List.foldl_cons, ih, happ]

/-- Membership in `afterFirstGate`: an id is produced exactly when it sits
at a position strictly after some position satisfying the gate. -/
theorem mem_afterFirstGate (gate : LessonProgress → Bool)
    (ls : List LessonProgress) (j : Nat) (hj : j < ls.length)
    (hnodup : (ls.map (·.lessonId)).Nodup) :
    (ls.get ⟨j, hj⟩).lessonId ∈ afterFirstGate gate ls ↔
      ∃ i, i < j ∧ ∃ hi : i < ls.length, gate (ls.get ⟨i, hi⟩) = true := by
  induction ls generalizing j with
  | nil => exact absurd hj (Nat.not_lt_zero j)
  | cons l ls ih =>
    have hnodup' : (ls.map (·.lessonId)).Nodup := by
      simpa using hnodup.of_cons
    by_cases hg : gate l
    · simp only [afterFirstGate, hg, if_pos]
      cases j with
      | zero =>
        simp only [List.get]
        constructor
        · intro hmem
          exfalso
          have : l.lessonId ∉ ls.map (·.lessonId) := by
            have := hnodup
            simp only [List.map_cons, List.nodup_cons] at this
            exact this.1
          exact this hmem
        · rintro ⟨i, hi, _⟩
          exact absurd hi (Nat.not_lt_zero i)
      | succ j =>
        simp only [List.get]
        constructor
        · intro _
          refine ⟨0, Nat.succ_pos j, Nat.succ_pos _, ?_⟩
          simpa using hg
        · intro _
          have hjlen : j < ls.length := Nat.lt_of_succ_lt_succ hj
          exact List.mem_map_of_mem (·.lessonId) (ls.get_mem j hjlen)
    · simp only [afterFirstGate, hg, if_neg, Bool.false_eq_true, not_false_iff]
      cases j with
      | zero =>
        simp only [List.get]
        constructor
        · intro hmem
          exfalso
          have hsub : afterFirstGate gate ls ⊆ ls.map (·.lessonId) := by
            clear ih hmem hnodup hnodup' hj
            induction ls with
            | nil => simp [afterFirstGate]
            | cons a t iht =>
              by_cases ha : gate a
              · simp [afterFirstGate, ha, List.subset_cons_of_subset]
              · simp only [afterFirstGate, ha, if_neg, Bool.false_eq_true,
                  not_false_iff]
                exact fun x hx => List.mem_cons_of_mem _ (iht hx)
          have : l.lessonId ∉ ls.map (·.lessonId) := by
            have := hnodup
            simp only [List.map_cons, List.nodup_cons] at this
            exact this.1
          exact this (hsub hmem)
        · rintro ⟨i, hi, _⟩
          exact absurd hi (Nat.not_lt_zero i)
      | succ j =>
        have hjlen : j < ls.length := Nat.lt_of_succ_lt_succ hj
        simp only [List.get]
        rw [ih j hjlen hnodup']
        constructor
        · rintro ⟨i, hij, hilen, hgi⟩
          exact ⟨i + 1, Nat.succ_lt_succ hij, Nat.succ_lt_succ hilen, hgi⟩
        · rintro ⟨i, hij, hilen, hgi⟩
          cases i with
          | zero => simp only [List.get] at hgi; exact absurd hgi (by simp [hg])
          | succ i =>
            exact ⟨i, Nat.lt_of_succ_lt_succ hij,
              Nat.lt_of_succ_lt_succ hilen, hgi⟩

/-- Generic membership characterization used for every copy of the scan. -/
theorem lockedScan_mem_iff (gate : LessonProgress → Bool)
    (mods : List ModuleProgress)
    (hnodup : ((flattenSnapshot mods).map (·.lessonId)).Nodup)
    (j : Nat) (hj : j < (flattenSnapshot mods).length) :
    ((flattenSnapshot mods).get ⟨j, hj⟩).lessonId ∈ lockedScan gate mods ↔
      ∃ i, i < j ∧ ∃ hi : i < (flattenSnapshot mods).length,
        gate ((flattenSnapshot mods).get ⟨i, hi⟩) = true := by
  rw [lockedScan_eq_flat, scanLessons_unblocked]
  simpa using mem_afterFirstGate gate _ j hj hnodup

/-- A demonstration snapshot: module A = [text lesson, gating quiz
(pass-mark 60, incomplete)], module B = [text lesson, video lesson]. -/
def demoSnapshot : List ModuleProgress :=
  [⟨"A", [⟨"A1", "Intro", "text", true, 0⟩,
          ⟨"A2", "Checkpoint", "quiz", false, 60⟩]⟩,
   ⟨"B", [⟨"B1", "Reading", "text", false, 0⟩,
          ⟨"B2", "Clip", "video", false, 0⟩]⟩]

/-- C1: for every progress snapshot (with distinct lesson ids), in each of
the three copies of the gating scan the locked set contains exactly the
lessons strictly after the first lesson that fires that copy's blocking
test in the flattened (module order, then lesson order) sequence: a
lesson's id is locked iff some strictly earlier position in the flattened
sequence fires the gate, regardless of module boundary; hence no lesson at
or before the first gate — in particular the gating lesson itself — is
ever in the set. -/
theorem gating_locked_exactly_after_first_blocker
    (mods : List ModuleProgress)
    (hnodup : ((flattenSnapshot mods).map (·.lessonId)).Nodup)
    (j : Nat) (hj : j < (flattenSnapshot mods).length) :
    (((flattenSnapshot mods).get ⟨j, hj⟩).lessonId ∈ lockedLessons mods ↔
      ∃ i, i < j ∧ ∃ hi : i < (flattenSnapshot mods).length,
        sidebarGate ((flattenSnapshot mods).get ⟨i, hi⟩) = true)
    ∧ (((flattenSnapshot mods).get ⟨j, hj⟩).lessonId ∈ detailLocked mods ↔
      ∃ i, i < j ∧ ∃ hi : i < (flattenSnapshot mods).length,
        detailGate ((flattenSnapshot mods).get ⟨i, hi⟩) = true)
    ∧ (((flattenSnapshot mods).get ⟨j, hj⟩).lessonId ∈ lessonPageLocked mods ↔
      ∃ i, i < j ∧ ∃ hi : i < (flattenSnapshot mods).length,
        lessonPageGate ((flattenSnapshot mods).get ⟨i, hi⟩) = true) :=
  ⟨lockedScan_mem_iff sidebarGate mods hnodup j hj,
   lockedScan_mem_iff detailGate mods hnodup j hj,
   lockedScan_mem_iff lessonPageGate mods hnodup j hj⟩

/-- Witness for C1 on `demoSnapshot`: the lesson after the unfinished
gating quiz (first lesson of the next module) is locked, and the gating
quiz itself is not. -/
theorem gating_locked_exactly_after_first_blocker_witness :
    "B1" ∈ lockedLessons demoSnapshot ∧ "A2" ∉ lockedLessons demoSnapshot := by
  have h2 :=
    (gating_locked_exactly_after_first_blocker demoSnapshot (by decide)
      2 (by decide)).1
  have h1 :=
    (gating_locked_exactly_after_first_blocker demoSnapshot (by decide)
      1 (by decide)).1
  constructor
  · exact h2.mpr ⟨1, by decide, by decide, by decide⟩
  · intro hmem
    rcases h1.mp hmem with ⟨i, hi, hlen, hgate⟩
    have hi0 : i = 0 := Nat.lt_one_iff.mp hi
    subst hi0
    rw [show (flattenSnapshot demoSnapshot).get ⟨0, hlen⟩ =
      ⟨"A1", "Intro", "text", true, 0⟩ from rfl] at hgate
    exact absurd hgate (by decide)

/-- A snapshot whose first lesson is a *non-quiz* lesson carrying a positive
pass-mark and not completed, followed by a second lesson. -/
def nonQuizGateSnapshot : List ModuleProgress :=
  [⟨"M1", [⟨"T1", "Reading", "text", false, 50⟩,
           ⟨"T2", "Clip", "video", false, 0⟩]⟩]

/-- Counterexample for C2: in the CourseDetailPage and LessonPage copies of
the gating scan, a non-quiz lesson (type "text") with pass-mark 50 and not
completed *does* start a gate — the following lesson is locked — while the
LessonSidebar copy, which checks the lesson type, locks nothing on the same
snapshot. -/
theorem nonquiz_lesson_starts_gate_in_detail_and_lessonpage_scans :
    sidebarGate ⟨"T1", "Reading", "text", false, 50⟩ = false ∧
    detailLocked nonQuizGateSnapshot = ["T2"] ∧
    lessonPageLocked nonQuizGateSnapshot = ["T2"] ∧
    lockedLessons nonQuizGateSnapshot = [] := by decide

/-- C2 (amended): only the LessonSidebar copy of the gating scan restricts
the blocking test to quiz lessons — it sets the blocking flag exactly for a
lesson of type "quiz" with pass-mark > 0 that is not completed.  The
CourseDetailPage and LessonPage copies do not consult the lesson type and
set the blocking flag for any lesson with pass-mark > 0 not marked
completed.  In every copy, a lesson encountered while the flag is already
set is added to the locked set regardless of its own type, and a lesson
that fires the gate is not itself added by its own gate. -/
theorem gate_tests_and_blocked_behavior :
    (∀ l : LessonProgress, sidebarGate l = true ↔
        l.lessonType = "quiz" ∧ 0 < l.passMarkPercentage ∧ l.completed = false)
    ∧ (∀ l : LessonProgress, detailGate l = true ↔
        0 < l.passMarkPercentage ∧ l.completed = false)
    ∧ (∀ l : LessonProgress, lessonPageGate l = true ↔
        0 < l.passMarkPercentage ∧ l.completed = false)
    ∧ (∀ (gate : LessonProgress → Bool) (acc : List String)
        (l : LessonProgress) (ls : List LessonProgress),
        scanLessons gate (true, acc) (l :: ls) =
          scanLessons gate (true, acc ++ [l.lessonId]) ls)
    ∧ (∀ (gate : LessonProgress → Bool) (acc : List String)
        (l : LessonProgress) (ls : List LessonProgress),
        scanLessons gate (false, acc) (l :: ls) =
          if gate l then scanLessons gate (true, acc) ls
          else scanLessons gate (false, acc) ls) := by
  refine ⟨?_, ?_, ?_, ?_, ?_⟩
  · intro l
    simp [sidebarGate, Bool.and_assoc, and_assoc]
  · intro l
    simp [detailGate]
  · intro l
    simp [lessonPageGate]
  · intro gate acc l ls
    simp [scanLessons]
  · intro gate acc l ls
    by_cases h : gate l <;> simp [scanLessons, h]

/-! ## QuizPlayer: questions, shuffles and option orders -/

structure Question where
  id : String
  questionText : String
  options : List String
  multiSelect : Bool
  order : Int
  deriving Repr, DecidableEq

instance : Inhabited Question := ⟨⟨"", "", [], false, 0⟩⟩

/-- The in-place swap `[arr[i], arr[j]] = [arr[j], arr[i]]` on a list;
both reads happen on the original list, as in the JS destructuring. -/
def swapL [Inhabited α] (l : List α) (i j : Nat) : List α :=
  (l.set i (l.getD j default)).set j (l.getD i default)

/-- The shuffle loop `for (let i = len-1; i > 0; i--)`: `fyAux rand i l`
performs the swaps at indices `i, i-1, ..., 1`.  The draw at index `i` is
modelled as `rand i % (i+1)`, covering every value Math.floor(Math.random()
* (i+1)) can take (an arbitrary value in `[0, i]`). -/
def fyAux [Inhabited α] (rand : Nat → Nat) : Nat → List α → List α
  | 0, l => l
  | i + 1, l => fyAux rand i (swapL l (i + 1) (rand (i + 1) % (i + 2)))

/-- Shuffle a whole list in place (used for the question shuffle of the
`sorted` memo and, through `fisherYates`, for option index shuffles). -/
def shuffleList [Inhabited α] (rand : Nat → Nat) (l : List α) : List α :=
  fyAux rand (l.length - 1) l

/-- `fisherYates` of `QuizPlayer.tsx`: build `[0, ..., length-1]` and
shuffle it in place. -/
def fisherYates (rand : Nat → Nat) (length : Nat) : List Nat :=
  shuffleList rand (List.range length)

theorem cons_set_perm [Inhabited α] :
    ∀ (t : List α) (k : Nat) (a : α), k < t.length →
      (t.getD k default :: t.set k a).Perm (a :: t) := by
  intro t
  induction t with
  | nil => intro k a hk; exact absurd hk (Nat.not_lt_zero k)
  | cons b s ih =>
    intro k a hk
    cases k with
    | zero =>
      simp only [List.getD_cons_zero, List.set_cons_zero]
      exact List.Perm.swap a b s
    | succ m =>
      have hm : m < s.length := Nat.lt_of_succ_lt_succ hk
      simp only [List.getD_cons_succ, List.set_cons_succ]
      exact ((List.Perm.swap b _ _).trans ((ih m a hm).cons b)).trans
        (List.Perm.swap a b s)

theorem swapL_perm_lt [Inhabited α] :
    ∀ (l : List α) (i j : Nat), i < j → j < l.length →
      (swapL l i j).Perm l := by
  intro l
  induction l with
  | nil => intro i j _ hj; exact absurd hj (Nat.not_lt_zero j)
  | cons a t ih =>
    intro i j hij hj
    cases j with
    | zero => exact absurd hij (Nat.not_lt_zero i)
    | succ k =>
      have hk : k < t.length := Nat.lt_of_succ_lt_succ hj
      cases i with
      | zero =>
        simp only [swapL, List.getD_cons_succ, List.getD_cons_zero,
          List.set_cons_zero, List.set_cons_succ]
        exact cons_set_perm t k a hk
      | succ m =>
        have hmk : m < k := Nat.lt_of_succ_lt_succ hij
        simp only [swapL, List.getD_cons_succ, List.set_cons_succ]
        exact (ih m k hmk hk).cons a

theorem set_getD_self [Inhabited α] (l : List α) (i : Nat) (hi : i < l.length) :
    l.set i (l.getD i default) = l := by
  apply List.ext_getElem
  · simp
  · intro n h1 h2
    rw [List.getElem_set]
    split
    · next heq =>
      subst heq
      exact (List.getD_eq_getElem l default hi).symm ▸ rfl
    · rfl

theorem swapL_perm [Inhabited α] (l : List α) (i j : Nat)
    (hi : i < l.length) (hj : j < l.length) : (swapL l i j).Perm l := by
  rcases Nat.lt_trichotomy i j with h | h | h
  · exact swapL_perm_lt l i j h hj
  · subst h
    unfold swapL
    rw [List.set_set, set_getD_self l i hi]
  · unfold swapL
    rw [List.set_comm _ _ _ (Nat.ne_of_gt h)]
    exact swapL_perm_lt l j i h hi

theorem fyAux_perm [Inhabited α] (rand : Nat → Nat) :
    ∀ (i : Nat) (l : List α), i < l.length → (fyAux rand i l).Perm l := by
  intro i
  induction i with
  | zero => intro l _; exact List.Perm.refl l
  | succ i ih =>
    intro l hl
    have hj : rand (i + 1) % (i + 2) < l.length :=
      Nat.lt_of_le_of_lt (Nat.le_of_lt_succ (Nat.mod_lt _ (Nat.succ_pos _))) hl
    have hswap := swapL_perm l (i + 1) (rand (i + 1) % (i + 2)) hl hj
    have hlen : (swapL l (i + 1) (rand (i + 1) % (i + 2))).length = l.length := by
      simp [swapL]
    have hi : i < (swapL l (i + 1) (rand (i + 1) % (i + 2))).length := by
      rw [hlen]; exact Nat.lt_of_succ_lt hl
    exact (ih _ hi).trans hswap

theorem shuffleList_perm [Inhabited α] (rand : Nat → Nat) (l : List α) :
    (shuffleList rand l).Perm l := by
  cases l with
  | nil => exact List.Perm.refl _
  | cons a t =>
    exact fyAux_perm rand _ _ (by simp [Nat.lt_succ_iff])

theorem fisherYates_perm (rand : Nat → Nat) (n : Nat) :
    (fisherYates rand n).Perm (List.range n) :=
  shuffleList_perm rand (List.range n)

/-- The `sorted` memo's base ordering:
`[...questions].sort((a, b) => a.order - b.order)` — a stable ascending
sort on the `order` key. -/
def sortedQuestions (qs : List Question) : List Question :=
  qs.mergeSort (fun a b => decide (a.order ≤ b.order))

/-- The `sorted` memo of `QuizPlayer.tsx`: the `order`-sorted questions,
shuffled in place when `randomizeQuestions` is set. -/
def displayQuestions (rand : Nat → Nat) (randomizeQuestions : Bool)
    (qs : List Question) : List Question :=
  if randomizeQuestions then shuffleList rand (sortedQuestions qs)
  else sortedQuestions qs

structure DisplayOption where
  text : String
  originalIndex : Nat
  deriving Repr, DecidableEq

/-- The `optionOrders` memo: empty when `randomizeAnswers` is off, else one
fresh Fisher-Yates permutation of `[0 .. q.options.length - 1]` per
question of `sorted` (each call consumes its own random draws, modelled by
indexing the draw stream with the question's position). -/
def optionOrders (rands : Nat → Nat → Nat) (randomizeAnswers : Bool)
    (sorted : List Question) : List (String × List Nat) :=
  if randomizeAnswers then
    sorted.enum.map fun p => (p.2.id, fisherYates (rands p.1) p.2.options.length)
  else []

/-- `getDisplayOptions` of `QuizPlayer.tsx`: with no recorded order, the
options in original positions; otherwise the recorded order mapped to
`{text: q.options[origIdx], originalIndex: origIdx}` entries. -/
def getDisplayOptions (orders : List (String × List Nat)) (q : Question) :
    List DisplayOption :=
  match orders.lookup q.id with
  | none => q.options.enum.map fun p => ⟨p.2, p.1⟩
  | some order => order.map fun origIdx => ⟨q.options.getD origIdx "", origIdx⟩

/-- C7: for every sequence of random draws and every n ≥ 0, the generated
shuffle of length n is a permutation of `{0..n-1}` — it has length n, no
duplicates, and contains exactly the numbers below n — and when the
corresponding randomize flag is off the identity ordering is used instead:
`optionOrders` is empty (so `getDisplayOptions` enumerates the options at
their original indices) and the question list is just the order-sorted
canonical sequence. -/
theorem fisherYates_bijection_and_identity_when_off :
    (∀ (rand : Nat → Nat) (n : Nat),
      (fisherYates rand n).Perm (List.range n)
      ∧ (fisherYates rand n).Nodup
      ∧ (fisherYates rand n).length = n
      ∧ ∀ k : Nat, k ∈ fisherYates rand n ↔ k < n)
    ∧ (∀ (rands : Nat → Nat → Nat) (sorted : List Question),
      optionOrders rands false sorted = [])
    ∧ (∀ q : Question,
      getDisplayOptions [] q =
        (List.range q.options.length).map fun i => ⟨q.options.getD i "", i⟩)
    ∧ (∀ (rand : Nat → Nat) (qs : List Question),
      displayQuestions rand false qs = sortedQuestions qs) := by
  refine ⟨fun rand n => ?_, fun rands sorted => rfl, fun q => ?_, fun rand qs => rfl⟩
  · have hperm := fisherYates_perm rand n
    refine ⟨hperm, hperm.nodup_iff.mpr (List.nodup_range n), ?_, fun k => ?_⟩
    · simpa using hperm.length_eq
    · rw [hperm.mem_iff]
      exact List.mem_range
  · show (q.options.enum.map fun p => DisplayOption.mk p.2 p.1) = _
    apply List.ext_getElem
    · simp
    · intro n h1 h2
      simp only [List.getElem_map, List.getElem_enum, List.getElem_range]
      rw [List.getD_eq_getElem]

/-! ## QuizPlayer state: attempts, eligibility, selections, submission -/

structure QuizAttempt where
  id : String
  score : ℚ
  passed : Bool
  createdAt : String
  deriving DecidableEq

structure QuizResultItem where
  questionId : String
  selectedOptionIndex : Option Nat
  selectedOptionIndices : Option (List Nat)
  correctOptionIndex : Nat
  correctOptionIndices : Option (List Nat)
  multiSelect : Bool
  isCorrect : Bool
  deriving DecidableEq

structure QuizResult where
  totalQuestions : Nat
  correctAnswers : Nat
  score : ℚ
  passed : Bool
  passMarkPercentage : Nat
  maxAttempts : Nat
  attemptsTaken : Nat
  showCorrectAnswers : Bool
  results : List QuizResultItem
  deriving DecidableEq

/-- The props of the `QuizPlayer` component (with their defaults applied).
`onPassedProvided` records whether an `onPassed` callback was supplied. -/
structure QuizConfig where
  lessonId : String
  passMarkPercentage : Nat
  maxAttempts : Nat
  randomizeQuestions : Bool
  randomizeAnswers : Bool
  showCorrectAnswers : Bool
  allowRetryAfterPass : Bool
  onPassedProvided : Bool
  deriving DecidableEq

/-- The component's mutable state.  `answers` models the
`Record<string, number>` of canonical single-select indices and
`multiAnswers` the `Record<string, number[]>` of canonical multi-select
index lists, both as association lists in JS object key order. -/
structure QuizState where
  answers : List (String × Nat)
  multiAnswers : List (String × List Nat)
  result : Option QuizResult
  error : String
  attempts : List QuizAttempt
  attemptsExhausted : Bool
  hasPreviouslyPassed : Bool
  shuffleKey : Nat
  deriving DecidableEq

def initQuizState : QuizState := ⟨[], [], none, "", [], false, false, 0⟩

/-- `{...prev, [k]: v}` on a string-keyed JS object: replace the value at
an existing key in place, else append the new key. -/
def updAssoc (m : List (String × β)) (k : String) (v : β) : List (String × β) :=
  if m.any (fun p => p.1 == k) then
    m.map fun p => if p.1 == k then (k, v) else p
  else m ++ [(k, v)]

/-- `handleSelect`: record the canonical index for a single-select
question, replacing any previous selection (no-op once a result exists). -/
def handleSelect (s : QuizState) (questionId : String) (originalIndex : Nat) :
    QuizState :=
  if s.result.isSome then s
  else { s with answers := updAssoc s.answers questionId originalIndex }

/-- `handleMultiToggle`: toggle a canonical index in the multi-select
selection set (no-op once a result exists). -/
def handleMultiToggle (s : QuizState) (questionId : String)
    (originalIndex : Nat) : QuizState :=
  if s.result.isSome then s
  else
    let current := (s.multiAnswers.lookup questionId).getD []
    let next :=
      if current.contains originalIndex then
        current.filter fun i => i != originalIndex
      else current ++ [originalIndex]
    { s with multiAnswers := updAssoc s.multiAnswers questionId next }

/-- The `.then` continuation of `loadAttempts`' fetch (the fetch itself is
issued only when a pass-mark or attempt cap is configured). -/
def applyAttemptsLoaded (cfg : QuizConfig) (s : QuizState)
    (data : List QuizAttempt) : QuizState :=
  if 0 < cfg.passMarkPercentage ∨ 0 < cfg.maxAttempts then
    let s1 := { s with attempts := data }
    let s2 :=
      if 0 < cfg.maxAttempts ∧ cfg.maxAttempts ≤ data.length then
        if data.any (·.passed) then s1
        else { s1 with attemptsExhausted := true }
      else s1
    if 0 < cfg.passMarkPercentage ∧ cfg.allowRetryAfterPass = false then
      { s2 with hasPreviouslyPassed := data.any (·.passed) }
    else s2
  else s

inductive AnswerEntry where
  | single (questionId : String) (selectedOptionIndex : Option Nat)
  | multi (questionId : String) (selectedOptionIndices : List Nat)
  deriving DecidableEq

def entryQuestionId : AnswerEntry → String
  | .single qid _ => qid
  | .multi qid _ => qid

/-- The `submissionAnswers` array built by `handleSubmit`: one entry per
question of `sorted`, carrying the stored canonical selections
(`answers[q.id]` may be absent in TS, hence the `Option`). -/
def submissionAnswers (sorted : List Question) (s : QuizState) :
    List AnswerEntry :=
  sorted.map fun q =>
    if q.multiSelect then .multi q.id ((s.multiAnswers.lookup q.id).getD [])
    else .single q.id (s.answers.lookup q.id)

/-- `handleSubmit`'s local completeness test: compare the count of
single-select selections (object key count) with the number of
single-select questions, and the count of non-empty multi-select
selections with the number of multi-select questions. -/
def validateFails (sorted : List Question) (s : QuizState) : Bool :=
  decide (s.answers.length <
      (sorted.filter fun q => !q.multiSelect).length) ||
    decide ((s.multiAnswers.filter fun p => 0 < p.2.length).length <
      (sorted.filter fun q => q.multiSelect).length)

/-- The local half of `handleSubmit`: fail with the validation message and
no network request when the completeness test fails, else produce the
submission payload. -/
def handleSubmitLocal (sorted : List Question) (s : QuizState) :
    Except String (List AnswerEntry) :=
  if validateFails sorted s then
    .error "Please answer all questions before submitting."
  else .ok (submissionAnswers sorted s)

/-- The `.then` continuation of a successful submission: store the result,
fire `onPassed` exactly when the response reports a pass (second
component), and lock when the response reports the cap reached without a
pass. -/
def applySubmitResponse (cfg : QuizConfig) (s : QuizState)
    (data : QuizResult) : QuizState × Bool :=
  let fired := data.passed && cfg.onPassedProvided
  let s1 := { s with result := some data }
  let s2 :=
    if 0 < data.maxAttempts ∧ data.maxAttempts ≤ data.attemptsTaken ∧
        data.passed = false then
      { s1 with attemptsExhausted := true }
    else s1
  (s2, fired)

def containsAux (pat : List Char) : List Char → Bool
  | [] => pat.isEmpty
  | c :: rest => pat.isPrefixOf (c :: rest) || containsAux pat rest

/-- `msg.includes(pat)` on JS strings. -/
def strContains (s pat : String) : Bool := containsAux pat.data s.data

/-- The `catch` branch of `handleSubmit`: surface the message and lock
defensively when it indicates the server-side attempt ceiling. -/
def applySubmitError (s : QuizState) (msg : String) : QuizState :=
  let s1 := { s with error := msg }
  if strContains msg "Maximum number of attempts" then
    { s1 with attemptsExhausted := true }
  else s1

/-- `handleRetry`: discard selections, result and error, and bump the
shuffle generation. -/
def handleRetry (s : QuizState) : QuizState :=
  { s with answers := [], multiAnswers := [], result := none, error := "",
           shuffleKey := s.shuffleKey + 1 }

def canSubmit (s : QuizState) : Bool :=
  !s.attemptsExhausted && !s.hasPreviouslyPassed

/-- The submit button is rendered only when no result is shown and
`canSubmit` holds. -/
def submitButtonShown (s : QuizState) : Bool :=
  s.result.isNone && canSubmit s

/-- The "already passed" banner: `hasPreviouslyPassed && !result`. -/
def passedBanner (s : QuizState) : Bool :=
  s.hasPreviouslyPassed && s.result.isNone

/-- The retry button inside the result box:
`!attemptsExhausted && (allowRetryAfterPass || !result.passed)`. -/
def retryButtonShown (cfg : QuizConfig) (s : QuizState) : Bool :=
  match s.result with
  | none => false
  | some r => !s.attemptsExhausted && (cfg.allowRetryAfterPass || !r.passed)

inductive QuizEvent where
  | select (questionId : String) (originalIndex : Nat)
  | multiToggle (questionId : String) (originalIndex : Nat)
  | attemptsLoaded (data : List QuizAttempt)
  | submitResponse (data : QuizResult)
  | submitError (msg : String)
  | retry
  deriving DecidableEq

def quizStep (cfg : QuizConfig) (s : QuizState) : QuizEvent → QuizState
  | .select qid oi => handleSelect s qid oi
  | .multiToggle qid oi => handleMultiToggle s qid oi
  | .attemptsLoaded data => applyAttemptsLoaded cfg s data
  | .submitResponse data => (applySubmitResponse cfg s data).1
  | .submitError msg => applySubmitError s msg
  | .retry => handleRetry s

def runQuiz (cfg : QuizConfig) (evs : List QuizEvent) : QuizState :=
  evs.foldl (quizStep cfg) initQuizState

/-! ## C5: attempt-cap lockout -/

/-- C5: submission is disabled whenever the attempt cap is positive and the
attempts used are at/over the cap with no pass — whether computed from the
fetched attempt history, reported by a submission response, or inferred
from a submission failure whose error text contains the attempt-ceiling
phrase; and the `attemptsExhausted` lock is sticky, so every state reached
after any of these conditions fires keeps submission disabled. -/
theorem submission_locked_when_cap_reached :
    (∀ (cfg : QuizConfig) (s : QuizState) (data : List QuizAttempt),
      0 < cfg.maxAttempts → cfg.maxAttempts ≤ data.length →
      data.any (·.passed) = false →
      (applyAttemptsLoaded cfg s data).attemptsExhausted = true ∧
        canSubmit (applyAttemptsLoaded cfg s data) = false)
    ∧ (∀ (cfg : QuizConfig) (s : QuizState) (data : QuizResult),
      0 < data.maxAttempts → data.maxAttempts ≤ data.attemptsTaken →
      data.passed = false →
      (applySubmitResponse cfg s data).1.attemptsExhausted = true ∧
        canSubmit (applySubmitResponse cfg s data).1 = false)
    ∧ (∀ (s : QuizState) (msg : String),
      strContains msg "Maximum number of attempts" = true →
      (applySubmitError s msg).attemptsExhausted = true ∧
        canSubmit (applySubmitError s msg) = false)
    ∧ (∀ (cfg : QuizConfig) (s : QuizState) (e : QuizEvent),
      s.attemptsExhausted = true → (quizStep cfg s e).attemptsExhausted = true)
    ∧ (∀ s : QuizState, s.attemptsExhausted = true → canSubmit s = false) := by
  refine ⟨?_, ?_, ?_, ?_, ?_⟩
  · intro cfg s data hmax hlen hnopass
    simp only [applyAttemptsLoaded, canSubmit, hmax, hlen, hnopass]
    split_ifs <;> simp_all
  · intro cfg s data hmax hlen hnopass
    simp only [applySubmitResponse, canSubmit]
    split_ifs <;> simp_all
  · intro s msg hmsg
    simp only [applySubmitError, canSubmit, hmsg]
    split_ifs <;> simp_all
  · intro cfg s e hex
    cases e with
    | select qid oi =>
      simp only [quizStep, handleSelect]
      split_ifs <;> simp_all
    | multiToggle qid oi =>
      simp only [quizStep, handleMultiToggle]
      split_ifs <;> simp_all
    | attemptsLoaded data =>
      simp only [quizStep, applyAttemptsLoaded]
      split_ifs <;> simp_all
    | submitResponse data =>
      simp only [quizStep, applySubmitResponse]
      split_ifs <;> simp_all
    | submitError msg =>
      simp only [quizStep, applySubmitError]
      split_ifs <;> simp_all
    | retry =>
      simp only [quizStep, handleRetry]
      simp_all
  · intro s hex
    simp [canSubmit, hex]

/-- A configuration with attempt cap 2 and a history of two failed
attempts, for the C5 witness. -/
def cfgCap2 : QuizConfig :=
  ⟨"L1", 70, 2, false, false, true, false, true⟩

def twoFailedAttempts : List QuizAttempt :=
  [⟨"a1", 0, false, "2024-01-01"⟩, ⟨"a2", 0, false, "2024-01-02"⟩]

/-- Witness for C5: with cap 2 and two failed historical attempts,
loading the history locks submission. -/
theorem submission_locked_when_cap_reached_witness :
    (applyAttemptsLoaded cfgCap2 initQuizState twoFailedAttempts).attemptsExhausted
        = true ∧
      canSubmit (applyAttemptsLoaded cfgCap2 initQuizState twoFailedAttempts)
        = false :=
  submission_locked_when_cap_reached.1 cfgCap2 initQuizState twoFailedAttempts
    (by decide) (by decide) (by decide)

/-! ## C6: completion signal and lesson rendering -/

/-- The `Lesson` shape fetched by `LessonPage` (`src/app/courses/page.tsx`). -/
structure Lesson where
  id : String
  title : String
  type : String
  content : Option String
  notes : Option String
  videoFilename : Option String
  pdfFilename : Option String
  passMarkPercentage : Nat
  maxAttempts : Nat
  randomizeQuestions : Bool
  randomizeAnswers : Bool
  showCorrectAnswers : Bool
  moduleId : String
  quizQuestions : List Question
  deriving DecidableEq

/-- Which lesson branches of `LessonPage` render the manual
"Mark as Complete" button: exactly the text, video and pdf branches. -/
def rendersMarkCompleteButton (l : Lesson) : Bool :=
  l.type == "text" || l.type == "video" || l.type == "pdf"

/-- The quiz branch of `LessonPage` renders `QuizPlayer` with these props;
in particular an `onPassed` callback is always supplied. -/
def lessonPageQuizConfig (l : Lesson) : QuizConfig :=
  { lessonId := l.id
    passMarkPercentage := l.passMarkPercentage
    maxAttempts := l.maxAttempts
    randomizeQuestions := l.randomizeQuestions
    randomizeAnswers := l.randomizeAnswers
    showCorrectAnswers := l.showCorrectAnswers
    allowRetryAfterPass := false
    onPassedProvided := true }

/-- Modelled from the spec: the scoring of a submission happens in the
backend (the `/lessons/:id/submit` endpoint), which is not part of this
repository — the client only consumes the response's `passed` flag.  Per
the specification, `passed` reports whether the score meets the configured
pass-mark, and "if no pass-mark is configured at all, any submission (pass
or fail is moot) is treated as completing", i.e. `passed` is reported true
for every submission when the pass-mark is 0. -/
def backendPassed (passMarkPercentage : Nat) (scorePercent : ℚ) : Bool :=
  decide (passMarkPercentage = 0) ||
    decide ((passMarkPercentage : ℚ) ≤ scorePercent)

/-- C6: the `onPassed` completion signal fires on a submission response
exactly when the response reports `passed = true` (and a callback is
wired, as it always is from `LessonPage`'s quiz branch); the quiz branch
of `LessonPage` renders no manual "Mark as Complete" control, so this is
the only completion path for quiz lessons; and with no pass-mark
configured the backend reports every submission as passed, so any
submission completes the lesson. -/
theorem completion_signal_iff_response_passed :
    (∀ (cfg : QuizConfig) (s : QuizState) (data : QuizResult),
      (applySubmitResponse cfg s data).2 = true ↔
        data.passed = true ∧ cfg.onPassedProvided = true)
    ∧ (∀ l : Lesson, l.type = "quiz" → rendersMarkCompleteButton l = false)
    ∧ (∀ l : Lesson, (lessonPageQuizConfig l).onPassedProvided = true)
    ∧ (∀ scorePercent : ℚ, backendPassed 0 scorePercent = true) := by
  refine ⟨?_, ?_, fun l => rfl, fun sc => by simp [backendPassed]⟩
  · intro cfg s data
    simp [applySubmitResponse]
  · intro l hquiz
    simp [rendersMarkCompleteButton, hquiz]

/-- Witness for C6 at a concrete quiz lesson and a concrete passing
response. -/
theorem completion_signal_iff_response_passed_witness :
    rendersMarkCompleteButton
      ⟨"L9", "Quiz", "quiz", none, none, none, none, 0, 0,
        false, false, true, "M9", []⟩ = false :=
  completion_signal_iff_response_passed.2.1
    ⟨"L9", "Quiz", "quiz", none, none, none, none, 0, 0,
      false, false, true, "M9", []⟩ rfl

/-! ## C8: PassedLocked state and retry -/

/-- C8: with a pass-mark configured, retries-after-pass disabled and a
passed attempt in the loaded history, the state is PassedLocked —
`hasPreviouslyPassed` set, submission disabled (button not rendered), and
the informational banner shown while no fresh result is displayed.  Retry
resets the selections, result and error and increments the shuffle
generation, and the retry control is available exactly when a result is
shown, the attempt cap lock is off, and — after a pass — retries after
pass are enabled. -/
theorem passedLocked_and_retry :
    (∀ (cfg : QuizConfig) (s : QuizState) (data : List QuizAttempt),
      0 < cfg.passMarkPercentage → cfg.allowRetryAfterPass = false →
      data.any (·.passed) = true →
      (applyAttemptsLoaded cfg s data).hasPreviouslyPassed = true ∧
        canSubmit (applyAttemptsLoaded cfg s data) = false ∧
        submitButtonShown (applyAttemptsLoaded cfg s data) = false ∧
        ((applyAttemptsLoaded cfg s data).result = none →
          passedBanner (applyAttemptsLoaded cfg s data) = true))
    ∧ (∀ s : QuizState, handleRetry s =
        { s with answers := [], multiAnswers := [], result := none,
                 error := "", shuffleKey := s.shuffleKey + 1 })
    ∧ (∀ (cfg : QuizConfig) (s : QuizState) (r : QuizResult),
      s.result = some r →
        (retryButtonShown cfg s = true ↔
          (s.attemptsExhausted = false ∧
            (r.passed = true → cfg.allowRetryAfterPass = true)))) := by
  refine ⟨?_, fun s => rfl, ?_⟩
  · intro cfg s data hpm hretry hpassed
    have h1 : (applyAttemptsLoaded cfg s data).hasPreviouslyPassed = true := by
      simp only [applyAttemptsLoaded, hpm, hretry, hpassed]
      split_ifs <;> simp_all
    have h2 : canSubmit (applyAttemptsLoaded cfg s data) = false := by
      simp [canSubmit, h1]
    refine ⟨h1, h2, by simp [submitButtonShown, h2], ?_⟩
    intro hres
    simp [passedBanner, h1, hres]
  · intro cfg s r hres
    simp only [retryButtonShown, hres]
    constructor
    · intro h
      rcases Bool.and_eq_true_iff.mp h with ⟨ha, hb⟩
      refine ⟨by simpa using ha, ?_⟩
      intro hp
      rcases Bool.or_eq_true_iff.mp hb with hb | hb
      · exact hb
      · rw [hp] at hb; simp at hb
    · rintro ⟨ha, hb⟩
      rw [ha]
      cases hp : r.passed with
      | true => simp [hb hp]
      | false => simp

/-- Witness for C8: loading a history containing a passed attempt, with a
pass-mark configured and retries-after-pass off, yields the PassedLocked
state on the initial (no-result) session. -/
theorem passedLocked_and_retry_witness :
    (applyAttemptsLoaded cfgCap2 initQuizState
        [⟨"a1", 1, true, "2024-01-03"⟩]).hasPreviouslyPassed = true ∧
      canSubmit (applyAttemptsLoaded cfgCap2 initQuizState
        [⟨"a1", 1, true, "2024-01-03"⟩]) = false ∧
      passedBanner (applyAttemptsLoaded cfgCap2 initQuizState
        [⟨"a1", 1, true, "2024-01-03"⟩]) = true := by
  have h := passedLocked_and_retry.1 cfgCap2 initQuizState
    [⟨"a1", 1, true, "2024-01-03"⟩] (by decide) rfl (by decide)
  exact ⟨h.1, h.2.1, h.2.2.2 (by decide)⟩

/-! ## C9: permutation fixity within a session -/

/-- Cache cell for the `sorted` `useMemo`: the dependency values it was
computed against (`[questions, randomizeQuestions, shuffleKey]`) and the
cached value. -/
structure SortedMemo where
  questionsDep : List Question
  randomizeDep : Bool
  keyDep : Nat
  value : List Question
  deriving DecidableEq

/-- `useMemo` semantics for the `sorted` memo: a render recomputes the
value — consuming fresh random draws — only when a dependency changed;
otherwise it returns the cache untouched. -/
def renderSorted (rand : Nat → Nat) (qs : List Question)
    (randomizeQuestions : Bool) (key : Nat) (m : SortedMemo) : SortedMemo :=
  if m.questionsDep = qs ∧ m.randomizeDep = randomizeQuestions ∧
      m.keyDep = key then m
  else ⟨qs, randomizeQuestions, key, displayQuestions rand randomizeQuestions qs⟩

/-- Counterexample for C9: the question/option shuffle is *not* a
deterministic function of the element count and the seed.  `fisherYates`
takes no seed argument at all — it consumes fresh random draws — so two
invocations with the same count (and the same shuffle-generation counter)
can produce different permutations. -/
theorem fisherYates_not_determined_by_count_and_seed :
    fisherYates (fun _ => 0) 2 = [1, 0] ∧
      fisherYates (fun _ => 1) 2 = [0, 1] ∧
      fisherYates (fun _ => 0) 2 ≠ fisherYates (fun _ => 1) 2 := by decide

/-- C9 (amended): the permutation is fixed per attempt session by
memoization rather than by seeded determinism: a re-render whose
dependencies (question list, randomize flag, shuffle-generation counter)
are unchanged returns the cached ordering no matter what fresh random
draws are available, so re-rendering never reshuffles; retry increments
the shuffle-generation counter, and a render under a changed counter
recomputes the ordering from the new draws (so the new ordering may
differ). -/
theorem permutation_fixed_by_memoization :
    (∀ (rand₂ : Nat → Nat) (qs : List Question) (rq : Bool) (key : Nat)
        (m : SortedMemo),
      m.questionsDep = qs → m.randomizeDep = rq → m.keyDep = key →
      renderSorted rand₂ qs rq key m = m)
    ∧ (∀ s : QuizState, (handleRetry s).shuffleKey = s.shuffleKey + 1)
    ∧ (∀ (rand : Nat → Nat) (qs : List Question) (rq : Bool) (key : Nat)
        (m : SortedMemo),
      m.keyDep ≠ key →
      (renderSorted rand qs rq key m).value = displayQuestions rand rq qs) := by
  refine ⟨?_, fun s => rfl, ?_⟩
  · intro rand₂ qs rq key m h1 h2 h3
    simp [renderSorted, h1, h2, h3]
  · intro rand qs rq key m hkey
    have : ¬(m.questionsDep = qs ∧ m.randomizeDep = rq ∧ m.keyDep = key) := by
      rintro ⟨-, -, h⟩
      exact hkey h
    simp [renderSorted, this]

/-- Witness for C9 (amended): a concrete cache hit returns the cache
unchanged even against a different draw stream, and a bumped
shuffle-generation counter recomputes. -/
theorem permutation_fixed_by_memoization_witness :
    renderSorted (fun _ => 5) [] false 3 ⟨[], false, 3, []⟩ = ⟨[], false, 3, []⟩
    ∧ (renderSorted (fun _ => 5) [] false 4 ⟨[], false, 3, []⟩).value =
        displayQuestions (fun _ => 5) false [] :=
  ⟨permutation_fixed_by_memoization.1 (fun _ => 5) [] false 3
      ⟨[], false, 3, []⟩ rfl rfl rfl,
    permutation_fixed_by_memoization.2.2 (fun _ => 5) [] false 4
      ⟨[], false, 3, []⟩ (by decide)⟩

/-! ## Association-list lemmas for the JS object maps -/

theorem lookup_eq_none_iff (m : List (String × β)) (k : String) :
    m.lookup k = none ↔ k ∉ m.map Prod.fst := by
  induction m with
  | nil => simp
  | cons p m ih =>
    obtain ⟨a, b⟩ := p
    by_cases h : k = a
    · subst h
      simp [List.lookup_cons]
    · simp [List.lookup_cons, beq_false_of_ne h, ih, h]

theorem mem_of_lookup_eq_some {m : List (String × β)} {k : String} {v : β}
    (h : m.lookup k = some v) : (k, v) ∈ m := by
  induction m with
  | nil => simp [List.lookup] at h
  | cons p m ih =>
    obtain ⟨a, b⟩ := p
    by_cases hk : k = a
    · subst hk
      simp [List.lookup_cons] at h
      simp [h]
    · rw [List.lookup_cons] at h
      rw [beq_false_of_ne hk] at h
      exact List.mem_cons_of_mem _ (ih h)

theorem lookup_eq_some_of_mem_nodup {m : List (String × β)}
    (hn : (m.map Prod.fst).Nodup) {k : String} {v : β}
    (hmem : (k, v) ∈ m) : m.lookup k = some v := by
  induction m with
  | nil => simp at hmem
  | cons p m ih =>
    obtain ⟨a, b⟩ := p
    simp only [List.map_cons, List.nodup_cons] at hn
    rcases List.mem_cons.mp hmem with heq | hmem'
    · cases heq
      simp [List.lookup_cons]
    · have hka : k ≠ a := by
        rintro rfl
        exact hn.1 (List.mem_map_of_mem Prod.fst hmem')
      rw [List.lookup_cons, beq_false_of_ne hka]
      exact ih hn.2 hmem'

theorem lookup_replace_self (m : List (String × β)) (k : String) (v : β)
    (h : m.any (fun p => p.1 == k) = true) :
    (m.map fun p => if p.1 == k then (k, v) else p).lookup k = some v := by
  induction m with
  | nil => simp at h
  | cons p m ih =>
    obtain ⟨a, b⟩ := p
    by_cases ha : a = k
    · subst ha
      simp [List.lookup_cons]
    · rw [List.any_cons] at h
      have h' : m.any (fun p => p.1 == k) = true := by
        rcases Bool.or_eq_true_iff.mp h with hh | hh
        · exact absurd (by simpa using hh) ha
        · exact hh
      simp only [List.map_cons, beq_false_of_ne ha, if_neg, Bool.false_eq_true,
        not_false_iff]
      rw [List.lookup_cons, beq_false_of_ne (Ne.symm ha)]
      exact ih h'

theorem lookup_append_singleton (m : List (String × β)) (k : String) (v : β)
    (hk : k ∉ m.map Prod.fst) : (m ++ [(k, v)]).lookup k = some v := by
  induction m with
  | nil => simp [List.lookup_cons]
  | cons p m ih =>
    obtain ⟨a, b⟩ := p
    have hka : k ≠ a := fun heq => hk (by simp [heq])
    have hk' : k ∉ m.map Prod.fst := fun hm => hk (by simp [hm])
    simp only [List.cons_append]
    rw [List.lookup_cons, beq_false_of_ne hka]
    exact ih hk'

theorem lookup_updAssoc_self (m : List (String × β)) (k : String) (v : β) :
    (updAssoc m k v).lookup k = some v := by
  unfold updAssoc
  by_cases h : m.any (fun p => p.1 == k) = true
  · rw [if_pos h]
    exact lookup_replace_self m k v h
  · rw [if_neg h]
    have hk : k ∉ m.map Prod.fst := by
      intro hmem
      apply h
      rcases List.mem_map.mp hmem with ⟨p, hp, hfst⟩
      exact List.any_eq_true.mpr ⟨p, hp, by simp [hfst]⟩
    exact lookup_append_singleton m k v hk

theorem mem_updAssoc {m : List (String × β)} {k : String} {v : β}
    {p : String × β} (h : p ∈ updAssoc m k v) : p ∈ m ∨ p = (k, v) := by
  unfold updAssoc at h
  by_cases hany : m.any (fun p => p.1 == k) = true
  · rw [if_pos hany] at h
    rcases List.mem_map.mp h with ⟨q, hq, heq⟩
    by_cases hqk : q.1 == k
    · right
      rw [if_pos hqk] at heq
      exact heq.symm
    · left
      rw [if_neg hqk] at heq
      exact heq ▸ hq
  · rw [if_neg hany] at h
    rcases List.mem_append.mp h with h | h
    · exact Or.inl h
    · exact Or.inr (by simpa using h)

theorem updAssoc_keys_present (m : List (String × β)) (k : String) (v : β)
    (h : m.any (fun p => p.1 == k) = true) :
    (updAssoc m k v).map Prod.fst = m.map Prod.fst := by
  unfold updAssoc
  rw [if_pos h, List.map_map]
  apply List.map_congr_left
  intro p _
  by_cases hp : p.1 == k
  · simp only [Function.comp_apply, if_pos hp]
    exact (beq_iff_eq.mp hp).symm
  · have hp2 : p.1 ≠ k := by simpa using hp
    simp [Function.comp_apply, hp, hp2]

theorem updAssoc_keys_absent (m : List (String × β)) (k : String) (v : β)
    (h : ¬ m.any (fun p => p.1 == k) = true) :
    (updAssoc m k v).map Prod.fst = m.map Prod.fst ++ [k] := by
  unfold updAssoc
  rw [if_neg h]
  simp

theorem updAssoc_keys_nodup (m : List (String × β)) (k : String) (v : β)
    (hn : (m.map Prod.fst).Nodup) :
    ((updAssoc m k v).map Prod.fst).Nodup := by
  by_cases h : m.any (fun p => p.1 == k) = true
  · rw [updAssoc_keys_present m k v h]
    exact hn
  · rw [updAssoc_keys_absent m k v h]
    rw [List.nodup_append]
    refine ⟨hn, List.nodup_singleton k, ?_⟩
    intro x hx hxk
    rcases List.mem_map.mp hx with ⟨p, hp, hfst⟩
    simp only [List.mem_singleton] at hxk
    apply h
    exact List.any_eq_true.mpr ⟨p, hp, by simp [hfst, hxk]⟩

/-! ## C3: display/canonical round-trip -/

/-- The orders recorded by `optionOrders` (over any enumeration start). -/
theorem optionOrders_enumFrom_lookup (rands : Nat → Nat → Nat) :
    ∀ (sorted : List Question) (n : Nat) (qid : String) (order : List Nat),
      ((sorted.enumFrom n).map fun p =>
        (p.2.id, fisherYates (rands p.1) p.2.options.length)).lookup qid =
          some order →
      ∃ q ∈ sorted, q.id = qid ∧ order.Perm (List.range q.options.length) := by
  intro sorted
  induction sorted with
  | nil => intro n qid order h; simp [List.lookup] at h
  | cons q qs ih =>
    intro n qid order h
    rw [List.enumFrom_cons, List.map_cons, List.lookup_cons] at h
    by_cases hq : qid = q.id
    · rw [hq, beq_self_eq_true] at h
      simp only at h
      cases h
      exact ⟨q, List.mem_cons_self q qs, hq.symm, fisherYates_perm _ _⟩
    · rw [beq_false_of_ne hq] at h
      simp only at h
      rcases ih (n + 1) qid order h with ⟨q', hq', hid, hperm⟩
      exact ⟨q', List.mem_cons_of_mem q hq', hid, hperm⟩

/-- C3: for every question whose options are displayed through a recorded
option order, the displayed entry at display index i carries
`originalIndex = order[i]` with text `options[order[i]]`; the orders the
component records are permutations of `{0..options.length-1}`, and a
duplicate-free order makes the recovered canonical index identify the
display position uniquely (round-trip); selecting (or toggling) the entry
shown at display position i stores exactly the canonical index
`order[i]` in the selection state; and the submission payload carries, per
question, exactly the stored canonical selection. -/
theorem display_roundtrip_and_canonical_selection :
    (∀ (orders : List (String × List Nat)) (q : Question)
        (order : List Nat) (i : Nat),
      orders.lookup q.id = some order → i < order.length →
      (getDisplayOptions orders q).getD i ⟨"", 0⟩ =
        ⟨q.options.getD (order.getD i 0) "", order.getD i 0⟩)
    ∧ (∀ (rands : Nat → Nat → Nat) (sorted : List Question) (qid : String)
        (order : List Nat),
      (optionOrders rands true sorted).lookup qid = some order →
      ∃ q ∈ sorted, q.id = qid ∧ order.Perm (List.range q.options.length))
    ∧ (∀ (order : List Nat), order.Nodup → ∀ i j : Nat,
      i < order.length → j < order.length →
      order.getD i 0 = order.getD j 0 → i = j)
    ∧ (∀ (orders : List (String × List Nat)) (q : Question)
        (order : List Nat) (i : Nat) (s : QuizState),
      orders.lookup q.id = some order → i < order.length → s.result = none →
      (handleSelect s q.id
        (((getDisplayOptions orders q).getD i ⟨"", 0⟩).originalIndex)).answers.lookup
          q.id = some (order.getD i 0))
    ∧ (∀ (orders : List (String × List Nat)) (q : Question)
        (order : List Nat) (i : Nat) (s : QuizState),
      orders.lookup q.id = some order → i < order.length → s.result = none →
      ((handleMultiToggle s q.id
          (((getDisplayOptions orders q).getD i ⟨"", 0⟩).originalIndex)).multiAnswers.lookup
            q.id).getD [] =
        (if ((s.multiAnswers.lookup q.id).getD []).contains (order.getD i 0) then
          ((s.multiAnswers.lookup q.id).getD []).filter fun x => x != order.getD i 0
        else ((s.multiAnswers.lookup q.id).getD []) ++ [order.getD i 0]))
    ∧ (∀ (sorted : List Question) (s : QuizState) (j : Nat),
      j < sorted.length →
      (submissionAnswers sorted s).getD j (.single "" none) =
        (if (sorted.getD j default).multiSelect then
          .multi (sorted.getD j default).id
            ((s.multiAnswers.lookup (sorted.getD j default).id).getD [])
        else .single (sorted.getD j default).id
          (s.answers.lookup (sorted.getD j default).id))) := by
  have hdisp : ∀ (orders : List (String × List Nat)) (q : Question)
      (order : List Nat) (i : Nat),
      orders.lookup q.id = some order → i < order.length →
      (getDisplayOptions orders q).getD i ⟨"", 0⟩ =
        ⟨q.options.getD (order.getD i 0) "", order.getD i 0⟩ := by
    intro orders q order i hord hi
    unfold getDisplayOptions
    rw [hord]
    have hlen : i < (order.map fun origIdx =>
        DisplayOption.mk (q.options.getD origIdx "") origIdx).length := by
      simpa using hi
    rw [List.getD_eq_getElem _ _ hlen, List.getElem_map,
      List.getD_eq_getElem _ _ hi]
  refine ⟨hdisp, ?_, ?_, ?_, ?_, ?_⟩
  · intro rands sorted qid order h
    unfold optionOrders at h
    rw [if_pos rfl, List.enum_eq_enumFrom] at h
    exact optionOrders_enumFrom_lookup rands sorted 0 qid order h
  · intro order hnodup i j hi hj heq
    rw [List.getD_eq_getElem _ _ hi, List.getD_eq_getElem _ _ hj] at heq
    exact (hnodup.getElem_inj_iff).mp heq
  · intro orders q order i s hord hi hres
    rw [hdisp orders q order i hord hi]
    unfold handleSelect
    rw [hres]
    simp only [Option.isSome_none, Bool.false_eq_true, if_neg,
      not_false_iff]
    exact lookup_updAssoc_self s.answers q.id (order.getD i 0)
  · intro orders q order i s hord hi hres
    rw [hdisp orders q order i hord hi]
    unfold handleMultiToggle
    rw [hres]
    simp only [Option.isSome_none, Bool.false_eq_true, if_neg,
      not_false_iff]
    rw [lookup_updAssoc_self]
    simp
  · intro sorted s j hj
    unfold submissionAnswers
    have hlen : j < (sorted.map fun q =>
        if q.multiSelect then
          AnswerEntry.multi q.id ((s.multiAnswers.lookup q.id).getD [])
        else AnswerEntry.single q.id (s.answers.lookup q.id)).length := by
      simpa using hj
    rw [List.getD_eq_getElem _ _ hlen, List.getElem_map,
      List.getD_eq_getElem _ _ hj]

def demoQuestion : Question := ⟨"q1", "Pick one", ["A", "B", "C"], false, 0⟩

def demoOrders : List (String × List Nat) := [("q1", [2, 0, 1])]

/-- Witness for C3: with options `["A","B","C"]` displayed in order
`[2,0,1]`, display position 0 shows option "C" with canonical index 2, and
selecting it stores canonical index 2. -/
theorem display_roundtrip_and_canonical_selection_witness :
    (getDisplayOptions demoOrders demoQuestion).getD 0 ⟨"", 0⟩ = ⟨"C", 2⟩
    ∧ (handleSelect initQuizState "q1"
        (((getDisplayOptions demoOrders demoQuestion).getD 0
          ⟨"", 0⟩).originalIndex)).answers.lookup "q1" = some 2 := by
  constructor
  · exact display_roundtrip_and_canonical_selection.1 demoOrders demoQuestion
      [2, 0, 1] 0 rfl (by decide)
  · exact display_roundtrip_and_canonical_selection.2.2.2.1 demoOrders
      demoQuestion [2, 0, 1] 0 initQuizState rfl (by decide) rfl

/-! ## C10: selection-state well-formedness -/

/-- Well-formedness of the selection state: object keys are unique and
every stored multi-select index list is duplicate-free. -/
def selectionWF (s : QuizState) : Prop :=
  (s.answers.map Prod.fst).Nodup ∧ (s.multiAnswers.map Prod.fst).Nodup ∧
    ∀ p ∈ s.multiAnswers, p.2.Nodup

theorem selectionWF_init : selectionWF initQuizState :=
  ⟨List.nodup_nil, List.nodup_nil, by intro p hp; simp [initQuizState] at hp⟩

theorem selectionWF_step (cfg : QuizConfig) (s : QuizState) (e : QuizEvent)
    (h : selectionWF s) : selectionWF (quizStep cfg s e) := by
  obtain ⟨ha, hm, hv⟩ := h
  cases e with
  | select qid oi =>
    simp only [quizStep, handleSelect]
    split_ifs with hres
    · exact ⟨ha, hm, hv⟩
    · exact ⟨updAssoc_keys_nodup _ _ _ ha, hm, hv⟩
  | multiToggle qid oi =>
    have hcur : ((s.multiAnswers.lookup qid).getD []).Nodup := by
      cases hl : s.multiAnswers.lookup qid with
      | none => simp
      | some v =>
        have := hv (qid, v) (mem_of_lookup_eq_some hl)
        simpa using this
    simp only [quizStep, handleMultiToggle]
    split_ifs with hres hc
    · exact ⟨ha, hm, hv⟩
    · refine ⟨ha, updAssoc_keys_nodup _ _ _ hm, ?_⟩
      intro p hp
      rcases mem_updAssoc hp with hold | hnew
      · exact hv p hold
      · subst hnew
        exact hcur.filter _
    · refine ⟨ha, updAssoc_keys_nodup _ _ _ hm, ?_⟩
      intro p hp
      rcases mem_updAssoc hp with hold | hnew
      · exact hv p hold
      · subst hnew
        show (((s.multiAnswers.lookup qid).getD []) ++ [oi]).Nodup
        rw [List.nodup_append]
        refine ⟨hcur, List.nodup_singleton oi, ?_⟩
        intro x hx hxoi
        simp only [List.mem_singleton] at hxoi
        subst hxoi
        exact hc (List.contains_iff_exists_mem_beq.mpr ⟨x, hx, by simp⟩)
  | attemptsLoaded data =>
    simp only [quizStep, applyAttemptsLoaded]
    split_ifs <;> exact ⟨ha, hm, hv⟩
  | submitResponse data =>
    simp only [quizStep, applySubmitResponse]
    split_ifs <;> exact ⟨ha, hm, hv⟩
  | submitError msg =>
    simp only [quizStep, applySubmitError]
    split_ifs <;> exact ⟨ha, hm, hv⟩
  | retry =>
    simp only [quizStep, handleRetry]
    exact ⟨List.nodup_nil, List.nodup_nil, by intro p hp; simp at hp⟩

theorem selectionWF_run (cfg : QuizConfig) (evs : List QuizEvent) :
    selectionWF (runQuiz cfg evs) := by
  unfold runQuiz
  suffices h : ∀ (l : List QuizEvent) (s : QuizState), selectionWF s →
      selectionWF (l.foldl (quizStep cfg) s) by
    exact h evs initQuizState selectionWF_init
  intro l
  induction l with
  | nil => intro s hs; exact hs
  | cons e l ih =>
    intro s hs
    exact ih (quizStep cfg s e) (selectionWF_step cfg s e hs)

/-- C10: from the empty selection state, every sequence of events keeps
the selection state well-formed — single-select state has unique keys (at
most one canonical index per question, and a new selection replaces the
old one), multi-select index lists never contain duplicates (toggle
removes a present index and appends an absent one) — and therefore every
`selectedOptionIndices` list in a successfully built submission payload is
duplicate-free. -/
theorem selection_state_wellformed (cfg : QuizConfig) (evs : List QuizEvent) :
    ((runQuiz cfg evs).answers.map Prod.fst).Nodup
    ∧ ((runQuiz cfg evs).multiAnswers.map Prod.fst).Nodup
    ∧ (∀ qid : String,
        (((runQuiz cfg evs).multiAnswers.lookup qid).getD []).Nodup)
    ∧ (∀ (sorted : List Question) (entries : List AnswerEntry),
        handleSubmitLocal sorted (runQuiz cfg evs) = Except.ok entries →
        ∀ (qid : String) (idxs : List Nat),
          AnswerEntry.multi qid idxs ∈ entries → idxs.Nodup)
    ∧ (∀ (qid : String) (oi : Nat), (runQuiz cfg evs).result = none →
        (runQuiz cfg (evs ++ [QuizEvent.select qid oi])).answers.lookup qid =
          some oi)
    ∧ (∀ (qid : String) (oi : Nat), (runQuiz cfg evs).result = none →
        ((runQuiz cfg
            (evs ++ [QuizEvent.multiToggle qid oi])).multiAnswers.lookup
              qid).getD [] =
          (if (((runQuiz cfg evs).multiAnswers.lookup qid).getD []).contains
              oi then
            (((runQuiz cfg evs).multiAnswers.lookup qid).getD []).filter
              fun x => x != oi
          else
            (((runQuiz cfg evs).multiAnswers.lookup qid).getD []) ++ [oi])) := by
  obtain ⟨ha, hm, hv⟩ := selectionWF_run cfg evs
  have hlookup : ∀ qid : String,
      (((runQuiz cfg evs).multiAnswers.lookup qid).getD []).Nodup := by
    intro qid
    cases hl : (runQuiz cfg evs).multiAnswers.lookup qid with
    | none => simp
    | some v => simpa using hv (qid, v) (mem_of_lookup_eq_some hl)
  refine ⟨ha, hm, hlookup, ?_, ?_, ?_⟩
  · intro sorted entries hok qid idxs hmem
    unfold handleSubmitLocal at hok
    split_ifs at hok
    cases hok
    unfold submissionAnswers at hmem
    rcases List.mem_map.mp hmem with ⟨q, _, heq⟩
    by_cases hms : q.multiSelect
    · rw [if_pos hms] at heq
      cases heq
      exact hlookup q.id
    · rw [if_neg hms] at heq
      exact absurd heq (by simp)
  · intro qid oi hres
    unfold runQuiz
    rw [List.foldl_append]
    show (quizStep cfg (runQuiz cfg evs) (QuizEvent.select qid oi)).answers.lookup
      qid = some oi
    simp only [quizStep, handleSelect, hres]
    simp only [Option.isSome_none, Bool.false_eq_true, if_neg, not_false_iff]
    exact lookup_updAssoc_self _ _ _
  · intro qid oi hres
    unfold runQuiz
    rw [List.foldl_append]
    show ((quizStep cfg (runQuiz cfg evs)
        (QuizEvent.multiToggle qid oi)).multiAnswers.lookup qid).getD [] = _
    simp only [quizStep, handleMultiToggle, hres]
    simp only [Option.isSome_none, Bool.false_eq_true, if_neg, not_false_iff]
    rw [lookup_updAssoc_self]
    simp only [Option.getD_some]
    rfl

/-- Witness for C10: toggling the same canonical index twice on the empty
state leaves a duplicate-free (indeed empty) list, and the payload of the
resulting session carries it. -/
theorem selection_state_wellformed_witness :
    (((runQuiz cfgCap2 [QuizEvent.multiToggle "q1" 2,
        QuizEvent.multiToggle "q1" 2]).multiAnswers.lookup "q1").getD
          []).Nodup
    ∧ (runQuiz cfgCap2
        ([QuizEvent.multiToggle "q1" 2] ++ [QuizEvent.select "q2" 1])).answers.lookup
          "q2" = some 1 := by
  constructor
  · exact (selection_state_wellformed cfgCap2
      [QuizEvent.multiToggle "q1" 2, QuizEvent.multiToggle "q1" 2]).2.2.1 "q1"
  · exact (selection_state_wellformed cfgCap2
      [QuizEvent.multiToggle "q1" 2]).2.2.2.2.1 "q2" 1 (by decide)

/-! ## C4: submission validation -/

theorem nodup_subset_length_le {K S : List String} (hK : K.Nodup)
    (hsub : K ⊆ S) : K.length ≤ S.length := by
  have h1 : K.toFinset.card = K.length := List.toFinset_card_of_nodup hK
  have h2 : K.toFinset ⊆ S.toFinset := by
    intro x hx
    exact List.mem_toFinset.mpr (hsub (List.mem_toFinset.mp hx))
  calc K.length = K.toFinset.card := h1.symm
    _ ≤ S.toFinset.card := Finset.card_le_card h2
    _ ≤ S.length := List.toFinset_card_le S

/-- For duplicate-free lists with `K ⊆ S`, the strict length inequality
says exactly that some element of `S` is missing from `K`. -/
theorem subset_nodup_length_lt_iff {K S : List String} (hK : K.Nodup)
    (hS : S.Nodup) (hKS : K ⊆ S) :
    K.length < S.length ↔ ∃ x ∈ S, x ∉ K := by
  constructor
  · intro hlen
    by_contra hno
    push_neg at hno
    have hsub : S ⊆ K := fun x hx => hno x hx
    have := nodup_subset_length_le hS hsub
    omega
  · rintro ⟨x, hxS, hxK⟩
    have hle := nodup_subset_length_le hK hKS
    rcases Nat.lt_or_ge K.length S.length with h | h
    · exact h
    · exfalso
      have h1 : K.toFinset ⊆ S.toFinset := by
        intro y hy
        exact List.mem_toFinset.mpr (hKS (List.mem_toFinset.mp hy))
      have h2 : S.toFinset.card ≤ K.toFinset.card := by
        rw [List.toFinset_card_of_nodup hK, List.toFinset_card_of_nodup hS]
        omega
      have heq := Finset.eq_of_subset_of_card_le h1 h2
      exact hxK (List.mem_toFinset.mp (heq ▸ List.mem_toFinset.mpr hxS))

/-- A multi-select key counts as answered exactly when its stored list is
non-empty. -/
theorem mem_nonempty_keys_iff {m : List (String × List Nat)}
    (hmn : (m.map Prod.fst).Nodup) (k : String) :
    k ∈ (m.filter fun p => 0 < p.2.length).map Prod.fst ↔
      (m.lookup k).getD [] ≠ [] := by
  constructor
  · intro hmem
    rcases List.mem_map.mp hmem with ⟨p, hp, hfst⟩
    rcases List.mem_filter.mp hp with ⟨hpm, hplen⟩
    have hlk : m.lookup k = some p.2 := by
      subst hfst
      exact lookup_eq_some_of_mem_nodup hmn (by simpa using hpm)
    rw [hlk]
    simp only [Option.getD_some]
    intro hnil
    rw [hnil] at hplen
    simp at hplen
  · intro hne
    cases hl : m.lookup k with
    | none => rw [hl] at hne; simp at hne
    | some v =>
      rw [hl] at hne
      simp only [Option.getD_some] at hne
      have hmem : (k, v) ∈ m := mem_of_lookup_eq_some hl
      have hfil : (k, v) ∈ m.filter fun p => 0 < p.2.length :=
        List.mem_filter.mpr ⟨hmem, by simpa using List.length_pos.mpr hne⟩
      exact List.mem_map.mpr ⟨(k, v), hfil, rfl⟩

/-- C4: with distinct question ids and a selection state whose keys come
from the matching questions (as every reachable state's do), `handleSubmit`
fails locally with the "answer all questions" validation message — and
performs no network request — exactly when some single-select question has
no recorded selection or some multi-select question has an empty selection
set; otherwise it produces the payload with exactly one entry per question
of the session, carrying the stored canonical `selectedOptionIndex`
(single mode, present) or `selectedOptionIndices` (multi mode, non-empty). -/
theorem submit_validation_iff_missing_answer
    (sorted : List Question) (s : QuizState)
    (hids : (sorted.map (·.id)).Nodup)
    (han : (s.answers.map Prod.fst).Nodup)
    (hak : ∀ k ∈ s.answers.map Prod.fst,
      k ∈ (sorted.filter fun q => !q.multiSelect).map (·.id))
    (hmn : (s.multiAnswers.map Prod.fst).Nodup)
    (hmk : ∀ p ∈ s.multiAnswers, 0 < p.2.length →
      p.1 ∈ (sorted.filter fun q => q.multiSelect).map (·.id)) :
    (((∃ q ∈ sorted, q.multiSelect = false ∧ s.answers.lookup q.id = none)
      ∨ (∃ q ∈ sorted, q.multiSelect = true ∧
          (s.multiAnswers.lookup q.id).getD [] = [])) ↔
      handleSubmitLocal sorted s =
        Except.error "Please answer all questions before submitting.")
    ∧ (handleSubmitLocal sorted s = Except.ok (submissionAnswers sorted s)
      ∨ handleSubmitLocal sorted s =
          Except.error "Please answer all questions before submitting.")
    ∧ (submissionAnswers sorted s).length = sorted.length
    ∧ (∀ entries, handleSubmitLocal sorted s = Except.ok entries →
        (∀ q ∈ sorted, q.multiSelect = false →
          ∃ oi, s.answers.lookup q.id = some oi ∧
            AnswerEntry.single q.id (some oi) ∈ entries)
        ∧ (∀ q ∈ sorted, q.multiSelect = true →
          AnswerEntry.multi q.id ((s.multiAnswers.lookup q.id).getD [])
            ∈ entries ∧ (s.multiAnswers.lookup q.id).getD [] ≠ [])) := by
  have hSsub : ((sorted.filter fun q => !q.multiSelect).map (·.id)).Nodup :=
    ((List.filter_sublist sorted).map (·.id)).nodup hids
  have hSsub2 : ((sorted.filter fun q => q.multiSelect).map (·.id)).Nodup :=
    ((List.filter_sublist sorted).map (·.id)).nodup hids
  have hK2n : ((s.multiAnswers.filter fun p => 0 < p.2.length).map
      Prod.fst).Nodup :=
    ((List.filter_sublist s.multiAnswers).map Prod.fst).nodup hmn
  have hsingle :
      s.answers.length < (sorted.filter fun q => !q.multiSelect).length ↔
        ∃ q ∈ sorted, q.multiSelect = false ∧ s.answers.lookup q.id = none := by
    have hlen1 : s.answers.length = (s.answers.map Prod.fst).length := by simp
    have hlen2 : (sorted.filter fun q => !q.multiSelect).length =
        ((sorted.filter fun q => !q.multiSelect).map (·.id)).length := by simp
    rw [hlen1, hlen2,
      subset_nodup_length_lt_iff han hSsub (fun k hk => hak k hk)]
    constructor
    · rintro ⟨x, hxS, hxK⟩
      rcases List.mem_map.mp hxS with ⟨q, hqf, hqid⟩
      rcases List.mem_filter.mp hqf with ⟨hqs, hqm⟩
      refine ⟨q, hqs, by simpa using hqm, ?_⟩
      rw [lookup_eq_none_iff]
      rw [hqid]
      exact hxK
    · rintro ⟨q, hqs, hqm, hqlk⟩
      refine ⟨q.id, ?_, ?_⟩
      · have hq2 : q ∈ sorted.filter fun q => !q.multiSelect :=
          List.mem_filter.mpr ⟨hqs, by rw [hqm]; rfl⟩
        exact List.mem_map_of_mem (·.id) hq2
      · exact (lookup_eq_none_iff _ _).mp hqlk
  have hmulti :
      (s.multiAnswers.filter fun p => 0 < p.2.length).length <
          (sorted.filter fun q => q.multiSelect).length ↔
        ∃ q ∈ sorted, q.multiSelect = true ∧
          (s.multiAnswers.lookup q.id).getD [] = [] := by
    have hlen1 : (s.multiAnswers.filter fun p => 0 < p.2.length).length =
        ((s.multiAnswers.filter fun p => 0 < p.2.length).map
          Prod.fst).length := by simp
    have hlen2 : (sorted.filter fun q => q.multiSelect).length =
        ((sorted.filter fun q => q.multiSelect).map (·.id)).length := by simp
    have hsub : ((s.multiAnswers.filter fun p => 0 < p.2.length).map
        Prod.fst) ⊆ (sorted.filter fun q => q.multiSelect).map (·.id) := by
      intro k hk
      rcases List.mem_map.mp hk with ⟨p, hpf, hfst⟩
      rcases List.mem_filter.mp hpf with ⟨hpm, hplen⟩
      exact hfst ▸ hmk p hpm (by simpa using hplen)
    rw [hlen1, hlen2, subset_nodup_length_lt_iff hK2n hSsub2 hsub]
    constructor
    · rintro ⟨x, hxS, hxK⟩
      rcases List.mem_map.mp hxS with ⟨q, hqf, hqid⟩
      rcases List.mem_filter.mp hqf with ⟨hqs, hqm⟩
      refine ⟨q, hqs, hqm, ?_⟩
      by_contra hne
      apply hxK
      rw [← hqid] at *
      exact (mem_nonempty_keys_iff hmn q.id).mpr hne
    · rintro ⟨q, hqs, hqm, hqlk⟩
      refine ⟨q.id, List.mem_map_of_mem (·.id)
        (List.mem_filter.mpr ⟨hqs, hqm⟩), ?_⟩
      intro hmem
      exact (mem_nonempty_keys_iff hmn q.id).mp hmem hqlk
  have hval : validateFails sorted s = true ↔
      ((∃ q ∈ sorted, q.multiSelect = false ∧ s.answers.lookup q.id = none)
        ∨ (∃ q ∈ sorted, q.multiSelect = true ∧
            (s.multiAnswers.lookup q.id).getD [] = [])) := by
    unfold validateFails
    rw [Bool.or_eq_true, decide_eq_true_iff, decide_eq_true_iff, hsingle,
      hmulti]
  refine ⟨?_, ?_, by simp [submissionAnswers], ?_⟩
  · constructor
    · intro hmiss
      unfold handleSubmitLocal
      rw [if_pos (hval.mpr hmiss)]
    · intro herr
      unfold handleSubmitLocal at herr
      by_cases hv : validateFails sorted s = true
      · exact hval.mp hv
      · rw [if_neg hv] at herr
        exact absurd herr (by simp)
  · unfold handleSubmitLocal
    by_cases hv : validateFails sorted s = true
    · rw [if_pos hv]; right; rfl
    · rw [if_neg hv]; left; rfl
  · intro entries hok
    unfold handleSubmitLocal at hok
    by_cases hv : validateFails sorted s = true
    · rw [if_pos hv] at hok
      exact absurd hok (by simp)
    · rw [if_neg hv] at hok
      have hent : entries = submissionAnswers sorted s := by
        cases hok; rfl
      subst hent
      have hnomiss := fun h => hv (hval.mpr h)
      push_neg at hnomiss
      rcases not_or.mp (fun h => hv (hval.mpr h)) with ⟨hns, hnm⟩
      push_neg at hns hnm
      constructor
      · intro q hq hqm
        have hlk := hns q hq (by simpa using hqm)
        cases hl : s.answers.lookup q.id with
        | none => exact absurd hl hlk
        | some oi =>
          refine ⟨oi, rfl, ?_⟩
          unfold submissionAnswers
          refine List.mem_map.mpr ⟨q, hq, ?_⟩
          rw [if_neg (by simp [hqm]), hl]
      · intro q hq hqm
        refine ⟨?_, hnm q hq hqm⟩
        unfold submissionAnswers
        refine List.mem_map.mpr ⟨q, hq, ?_⟩
        rw [if_pos hqm]

def demoSorted : List Question :=
  [⟨"q1", "Single", ["A", "B"], false, 0⟩,
   ⟨"q2", "Multi", ["A", "B", "C"], true, 1⟩]

/-- Witness for C4: on an empty selection state, submission fails locally
with the validation message. -/
theorem submit_validation_iff_missing_answer_witness :
    handleSubmitLocal demoSorted initQuizState =
      Except.error "Please answer all questions before submitting." := by
  have h := (submit_validation_iff_missing_answer demoSorted initQuizState
    (by decide) (by decide)
    (by intro k hk; simp [initQuizState] at hk)
    (by decide)
    (by intro p hp; simp [initQuizState] at hp)).1
  exact h.mp (Or.inl ⟨⟨"q1", "Single", ["A", "B"], false, 0⟩, by decide,
    rfl, rfl⟩)
